import Mathlib

/-!
Verification of the qliz terminal quiz game (src/qliz.py) against its
natural-language specification.

The development shallowly embeds the parts of `qliz.py` that the claims
refer to:

* the per-question timed input loop of `Qliz.play_game` (lines 477-589),
  modelled as a step function over an explicit schedule of observed clock
  values and key events;
* question selection, `Qliz.select_random_questions` (lines 79-87), with
  the output of `random.sample` abstracted as a list of chosen indices;
* the scoreboard ranking sort used by `display_scoreboard` (line 806) and
  `display_top5_with_emails` (line 743), and the high-score predicate of
  `show_game_over` (lines 626-645);
* scoreboard and stats persistence, `load_scoreboard` (lines 680-690),
  `save_score` (lines 651-678), `load_stats` (lines 711-717) and
  `save_game_stats` (lines 692-709).

Time values (Python floats from `time.time()`) are modelled as rationals.
-/

/-- One question of the bank, as built by `load_quiz_config`
(qliz.py lines 62-70): fields `id`, `question`, `options`, `correct`,
`explanation`. -/
structure Question where
  id : Nat
  question : String
  options : List String
  correct : Nat
  explanation : String
deriving DecidableEq

instance : Inhabited Question := ⟨⟨0, "", [], 0, ""⟩⟩

/-- One key event observed by `stdscr.getch()` inside the question loop
(qliz.py lines 495-553).  `noKey` is the no-input case (`getch` in
`nodelay` mode returning -1), `other` is any other unrecognized key code
(for example arrow keys left and right); both fall through every branch
of the elif chain and are no-ops. -/
inductive KeyEvent where
  | keyUp : KeyEvent
  | keyDown : KeyEvent
  | ch : Char → KeyEvent
  | noKey : KeyEvent
  | other : KeyEvent
deriving DecidableEq

/-- One step of the input handling in the question loop
(qliz.py lines 497-553).  Given the option count, the currently
highlighted index and the key event, it returns the new highlighted index
and, when the key commits an answer, the committed option index
(`answered = True` with `answer` set in the source).

The whole handler sits inside a bare `try ... except: pass`
(lines 494-555), so the `ZeroDivisionError` raised by
`selected_idx % len(options)` when the option count is zero is swallowed
and leaves the state unchanged; the zero-option branches below model
exactly that. -/
def handleKey (nopts selected : Nat) : KeyEvent → Nat × Option Nat
  | KeyEvent.keyUp =>
    if nopts = 0 then (selected, none) else ((selected + nopts - 1) % nopts, none)
  | KeyEvent.keyDown =>
    if nopts = 0 then (selected, none) else ((selected + 1) % nopts, none)
  | KeyEvent.ch c =>
    if c = '\n' ∨ c = ' ' then (selected, some selected)
    else if c = 'a' ∨ c = 'A' then (if 0 < nopts then (selected, some 0) else (selected, none))
    else if c = 'b' ∨ c = 'B' then (if 1 < nopts then (selected, some 1) else (selected, none))
    else if c = 'c' ∨ c = 'C' then (if 2 < nopts then (selected, some 2) else (selected, none))
    else if c = 'd' ∨ c = 'D' then (if 3 < nopts then (selected, some 3) else (selected, none))
    else if c = 'e' ∨ c = 'E' then (if 4 < nopts then (selected, some 4) else (selected, none))
    else if c = 'f' ∨ c = 'F' then (if 5 < nopts then (selected, some 5) else (selected, none))
    else if c = '1' then (if 0 < nopts then (selected, some 0) else (selected, none))
    else if c = '2' then (if 1 < nopts then (selected, some 1) else (selected, none))
    else if c = '3' then (if 2 < nopts then (selected, some 2) else (selected, none))
    else if c = '4' then (if 3 < nopts then (selected, some 3) else (selected, none))
    else if c = '5' then (if 4 < nopts then (selected, some 4) else (selected, none))
    else if c = '6' then (if 5 < nopts then (selected, some 5) else (selected, none))
    else (selected, none)
  | KeyEvent.noKey => (selected, none)
  | KeyEvent.other => (selected, none)

/-- The `while not answered` loop of one question
(qliz.py lines 485-557), driven by a schedule: each list element is one
iteration, giving the elapsed time `time.time() - start_time` observed at
the top of the iteration and the key event returned by `getch`.

Returns `some none` for the timeout break (line 488-490, `answer` still
`None`), `some (some a)` when a key commits answer `a`, and `none` when
the schedule is exhausted before the loop terminates. -/
def runLoop (timeout : ℚ) (nopts : Nat) : Nat → List (ℚ × KeyEvent) → Option (Option Nat)
  | _, [] => none
  | selected, (elapsed, k) :: rest =>
    if timeout ≤ elapsed then some none
    else
      match handleKey nopts selected k with
      | (_, some a) => some (some a)
      | (selected2, none) => runLoop timeout nopts selected2 rest

/-- The per-question record appended to `player.question_details`
(qliz.py lines 579-589). -/
structure QuestionOutcome where
  question_id : Nat
  question_text : String
  options : List String
  correct_answer : Nat
  player_answer : Option Nat
  is_correct : Bool
  time_taken : ℚ
  timed_out : Bool
deriving DecidableEq

/-- Post-loop bookkeeping for one question (qliz.py lines 561-589):
given the loop result `answer` and the measured
`time_taken = time.time() - start_time` of line 561, it returns the
`question_detail` record, the increment to `correct_answers` and the
increment to `total_time`.  On timeout the code adds `time_per_question`
to `total_time` (line 567) but stores the measured `time_taken` in the
detail record (line 586). -/
def finishQuestion (timeout : ℚ) (q : Question) (answer : Option Nat) (time_taken : ℚ) :
    QuestionOutcome × Nat × ℚ :=
  match answer with
  | none =>
    ({ question_id := q.id, question_text := q.question, options := q.options,
       correct_answer := q.correct, player_answer := none, is_correct := false,
       time_taken := time_taken, timed_out := true }, 0, timeout)
  | some a =>
    if a = q.correct then
      ({ question_id := q.id, question_text := q.question, options := q.options,
         correct_answer := q.correct, player_answer := some a, is_correct := true,
         time_taken := time_taken, timed_out := false }, 1, time_taken)
    else
      ({ question_id := q.id, question_text := q.question, options := q.options,
         correct_answer := q.correct, player_answer := some a, is_correct := false,
         time_taken := time_taken, timed_out := false }, 0, time_taken)

/-- The schedule driving one question: the list of (elapsed, key) pairs
observed by the loop iterations, and the elapsed time measured by
`time_taken = time.time() - start_time` right after the loop
(qliz.py line 561). -/
structure QSched where
  events : List (ℚ × KeyEvent)
  finalElapsed : ℚ
deriving DecidableEq

/-- One question of `play_game`: run the timed loop from highlighted
index 0 (line 478) and, if it terminates, apply the post-loop
bookkeeping. -/
def runQuestion (timeout : ℚ) (q : Question) (s : QSched) :
    Option (QuestionOutcome × Nat × ℚ) :=
  (runLoop timeout q.options.length 0 s.events).map fun answer =>
    finishQuestion timeout q answer s.finalElapsed

/-- The session totals set at the end of `play_game`
(qliz.py lines 591-592): `player.score = correct_answers`,
`player.total_time = total_time`, plus the accumulated
`player.question_details`. -/
structure SessionResult where
  score : Nat
  total_time : ℚ
  question_details : List QuestionOutcome
deriving DecidableEq

/-- The question loop of `play_game` over the selected questions
(qliz.py lines 474-592): fold over the questions, each paired with its
schedule, accumulating `correct_answers`, `total_time` and
`question_details`.  `none` if some question schedule is exhausted
before its loop terminates. -/
def playGame (timeout : ℚ) : List (Question × QSched) → Option SessionResult
  | [] => some { score := 0, total_time := 0, question_details := [] }
  | (q, s) :: rest =>
    (runQuestion timeout q s).bind fun oit =>
      (playGame timeout rest).map fun r =>
        { score := oit.2.1 + r.score, total_time := oit.2.2 + r.total_time,
          question_details := oit.1 :: r.question_details }

example : handleKey 2 0 (KeyEvent.ch ' ') = (0, some 0) := by decide
example : handleKey 2 1 KeyEvent.keyUp = (0, none) := by decide
example : handleKey 0 0 KeyEvent.keyUp = (0, none) := by decide
example : runLoop 30 2 0 [((31 : ℚ), KeyEvent.noKey)] = some none := by decide

/-- `Qliz.select_random_questions` (qliz.py lines 79-87): keep the whole
bank when it has at most `questions_per_game` entries, otherwise take a
`random.sample` of size `questions_per_game`.  The output of
`random.sample` is abstracted as `sampleIdx`, the list of chosen bank
positions in selection order; `random.sample` guarantees the positions
are pairwise distinct, in range, and `questions_per_game` many, which the
theorems take as hypotheses. -/
def select_random_questions (all_questions : List Question) (questions_per_game : Nat)
    (sampleIdx : List Nat) : List Question :=
  if all_questions.length ≤ questions_per_game then all_questions
  else sampleIdx.map fun i => all_questions.getD i default

/-- One persisted scoreboard entry, the `player_data` dict of
`save_score` (qliz.py lines 658-665). -/
structure ScoreEntry where
  name : String
  email : String
  marketing_consent : Bool
  score : Nat
  total_time : ℚ
  timestamp : String
deriving DecidableEq

/-- The comparison underlying
`sorted(scores, key=lambda x: (-x['score'], x['total_time']))`
(qliz.py lines 634, 743, 806): entry `a` sorts no later than entry `b`
when `a` has the higher score, or equal scores and `a` has total time at
most that of `b`. -/
def entryKeyLe (a b : ScoreEntry) : Bool :=
  decide (b.score < a.score) || (decide (a.score = b.score) && decide (a.total_time ≤ b.total_time))

/-- Stable insertion of an entry into an already sorted list: the entry
goes right before the first element it compares `entryKeyLe` to, hence
after nothing with a strictly smaller key and before every element with
the same key that was inserted earlier from further down the original
list. -/
def insertEntry (x : ScoreEntry) : List ScoreEntry → List ScoreEntry
  | [] => [x]
  | y :: ys => if entryKeyLe x y then x :: y :: ys else y :: insertEntry x ys

/-- The stable sort
`sorted(scores, key=lambda x: (-x['score'], x['total_time']))` of
qliz.py lines 634, 743 and 806, modelled as stable insertion sort over
`entryKeyLe` (Python sorted is a stable sort over the same key; the
sortedness, permutation and stability theorems below pin the model
down). -/
def sortEntries : List ScoreEntry → List ScoreEntry
  | [] => []
  | x :: xs => insertEntry x (sortEntries xs)

/-- The ranking query of `display_scoreboard`
(`sorted(...)[:10]`, qliz.py line 806) and `display_top5_with_emails`
(`sorted(...)[:5]`, line 743), generalized over the limit. -/
def rankings (scores : List ScoreEntry) (limit : Nat) : List ScoreEntry :=
  (sortEntries scores).take limit

/-- Whether an entry has exactly the given score and total time; used to
state stability of the ranking sort. -/
def sameKey (s : Nat) (t : ℚ) (e : ScoreEntry) : Bool :=
  decide (e.score = s) && decide (e.total_time = t)

/-- The new-high-score check of `show_game_over` (qliz.py lines 626-641):
true when the scoreboard is empty, otherwise compare against the first
entry of the sorted scoreboard — strictly better score, or equal score
and strictly smaller total time.  (The inner empty case is unreachable
because sorting a nonempty list is nonempty.) -/
def is_high_score (scores : List ScoreEntry) (pScore : Nat) (pTime : ℚ) : Bool :=
  match scores with
  | [] => true
  | _ :: _ =>
    match sortEntries scores with
    | [] => true
    | best :: _ =>
      decide (best.score < pScore) || (decide (pScore = best.score) && decide (pTime < best.total_time))

/-- State of a persisted store on disk as seen by a `load` call:
missing file (`FileNotFoundError`), present but not readable as JSON of
the expected shape, or present with parsed content. -/
inductive FileState (α : Type) where
  | absent : FileState α
  | corrupt : FileState α
  | present : α → FileState α

/-- The error escaping a `load` call: `load_scoreboard` and `load_stats`
catch only `FileNotFoundError`, so a decode error on a present file
propagates to the caller. -/
inductive LoadError where
  | jsonDecodeError : LoadError
deriving DecidableEq

/-- A scoreboard document on disk: either the legacy bare list of
entries, or the wrapped form written by `save_score`
(qliz.py lines 670-675) with title, description and last-updated
metadata. -/
inductive ScoreboardFile where
  | bare : List ScoreEntry → ScoreboardFile
  | wrapped : String → String → String → List ScoreEntry → ScoreboardFile
deriving DecidableEq

/-- The in-memory scoreboard dict returned by `load_scoreboard`; callers
read `scores` (with `.get('scores', [])`) and the optional metadata
fields. -/
structure ScoreboardData where
  quiz_title : Option String
  quiz_description : Option String
  last_updated : Option String
  scores : List ScoreEntry
deriving DecidableEq

/-- `Qliz.load_scoreboard` (qliz.py lines 680-690): a missing file
(`FileNotFoundError`) yields `{"scores": []}`; a bare-list document is
wrapped as `{"scores": data}`; a wrapped document is returned as is.
Only `FileNotFoundError` is caught, so a present-but-corrupt file lets
the `json.JSONDecodeError` propagate. -/
def load_scoreboard : FileState ScoreboardFile → Except LoadError ScoreboardData
  | FileState.absent => Except.ok ⟨none, none, none, []⟩
  | FileState.corrupt => Except.error LoadError.jsonDecodeError
  | FileState.present (ScoreboardFile.bare es) => Except.ok ⟨none, none, none, es⟩
  | FileState.present (ScoreboardFile.wrapped t d u es) => Except.ok ⟨some t, some d, some u, es⟩

/-- `Qliz.save_score` (qliz.py lines 651-678) after the load: append the
new entry to the loaded scores and write back the whole document in
wrapped form, with the quiz title, description and a fresh last-updated
timestamp. -/
def save_score (loaded : ScoreboardData) (entry : ScoreEntry)
    (title description now : String) : ScoreboardFile :=
  ScoreboardFile.wrapped title description now (loaded.scores ++ [entry])

/-- One session record of the stats store, the `game_stats` dict of
`save_game_stats` (qliz.py lines 696-704). -/
structure StatsRecord where
  player_name : String
  player_email : String
  timestamp : String
  final_score : Nat
  total_time : ℚ
  total_questions : Nat
  questions : List QuestionOutcome
deriving DecidableEq

/-- `Qliz.load_stats` (qliz.py lines 711-717): a missing file yields the
empty list; only `FileNotFoundError` is caught, so a
present-but-corrupt file lets the decode error propagate. -/
def load_stats : FileState (List StatsRecord) → Except LoadError (List StatsRecord)
  | FileState.absent => Except.ok []
  | FileState.corrupt => Except.error LoadError.jsonDecodeError
  | FileState.present recs => Except.ok recs

/-- `Qliz.save_game_stats` (qliz.py lines 692-709) after the load:
append the new record and write back the full list. -/
def save_game_stats (loaded : List StatsRecord) (rec : StatsRecord) : List StatsRecord :=
  loaded ++ [rec]

example : sortEntries
    [⟨"p1", "e1", false, 5, 10, "t1"⟩, ⟨"p2", "e2", false, 5, 8, "t2"⟩,
     ⟨"p3", "e3", false, 3, 1, "t3"⟩] =
    [⟨"p2", "e2", false, 5, 8, "t2"⟩, ⟨"p1", "e1", false, 5, 10, "t1"⟩,
     ⟨"p3", "e3", false, 3, 1, "t3"⟩] := by decide
example : is_high_score [] 3 20 = true := by decide
example : is_high_score [⟨"a", "b", false, 3, 15, "t"⟩] 3 10 = true := by decide
example : is_high_score [⟨"a", "b", false, 3, 15, "t"⟩] 3 20 = false := by decide

lemma entryKeyLe_iff {a b : ScoreEntry} :
    entryKeyLe a b = true ↔
      b.score < a.score ∨ (a.score = b.score ∧ a.total_time ≤ b.total_time) := by
  simp [entryKeyLe]

lemma entryKeyLe_refl (a : ScoreEntry) : entryKeyLe a a = true := by
  simp [entryKeyLe]

lemma entryKeyLe_total (a b : ScoreEntry) :
    entryKeyLe a b = true ∨ entryKeyLe b a = true := by
  rcases Nat.lt_trichotomy a.score b.score with h | h | h
  · right; exact entryKeyLe_iff.mpr (Or.inl h)
  · rcases le_total a.total_time b.total_time with ht | ht
    · left; exact entryKeyLe_iff.mpr (Or.inr ⟨h, ht⟩)
    · right; exact entryKeyLe_iff.mpr (Or.inr ⟨h.symm, ht⟩)
  · left; exact entryKeyLe_iff.mpr (Or.inl h)

lemma entryKeyLe_trans {a b c : ScoreEntry}
    (h1 : entryKeyLe a b = true) (h2 : entryKeyLe b c = true) :
    entryKeyLe a c = true := by
  rw [entryKeyLe_iff] at h1 h2 ⊢
  rcases h1 with h1 | ⟨h1s, h1t⟩ <;> rcases h2 with h2 | ⟨h2s, h2t⟩
  · exact Or.inl (h2.trans h1)
  · exact Or.inl (h2s ▸ h1)
  · exact Or.inl (h1s ▸ h2)
  · exact Or.inr ⟨h1s.trans h2s, h1t.trans h2t⟩

lemma insertEntry_perm (x : ScoreEntry) (l : List ScoreEntry) :
    (insertEntry x l).Perm (x :: l) := by
  induction l with
  | nil => exact List.Perm.refl _
  | cons y ys ih =>
    by_cases h : entryKeyLe x y
    · simp [insertEntry, h]
    · simp only [insertEntry, h]
      rw [if_neg (by simp [h])]
      exact (ih.cons y).trans (List.Perm.swap x y ys)

lemma sortEntries_perm (l : List ScoreEntry) : (sortEntries l).Perm l := by
  induction l with
  | nil => exact List.Perm.refl _
  | cons x xs ih => exact (insertEntry_perm x (sortEntries xs)).trans (ih.cons x)

lemma mem_insertEntry {a x : ScoreEntry} {l : List ScoreEntry} :
    a ∈ insertEntry x l ↔ a = x ∨ a ∈ l := by
  rw [(insertEntry_perm x l).mem_iff]
  simp

lemma pairwise_insertEntry {x : ScoreEntry} {l : List ScoreEntry}
    (h : l.Pairwise (fun a b => entryKeyLe a b = true)) :
    (insertEntry x l).Pairwise (fun a b => entryKeyLe a b = true) := by
  induction l with
  | nil => simp [insertEntry]
  | cons y ys ih =>
    rcases List.pairwise_cons.mp h with ⟨hy, hys⟩
    by_cases hxy : entryKeyLe x y
    · rw [insertEntry, if_pos hxy]
      refine List.pairwise_cons.mpr ⟨?_, h⟩
      intro b hb
      rcases List.mem_cons.mp hb with rfl | hb
      · exact hxy
      · exact entryKeyLe_trans hxy (hy b hb)
    · rw [insertEntry, if_neg hxy]
      refine List.pairwise_cons.mpr ⟨?_, ih hys⟩
      intro b hb
      rcases mem_insertEntry.mp hb with rfl | hb
      · rcases entryKeyLe_total b y with hh | hh
        · exact absurd hh hxy
        · exact hh
      · exact hy b hb

lemma sortEntries_pairwise (l : List ScoreEntry) :
    (sortEntries l).Pairwise (fun a b => entryKeyLe a b = true) := by
  induction l with
  | nil => simp [sortEntries]
  | cons x xs ih => exact pairwise_insertEntry ih

lemma sortEntries_head_min {l : List ScoreEntry} {b : ScoreEntry} {rest : List ScoreEntry}
    (h : sortEntries l = b :: rest) :
    b ∈ l ∧ ∀ e ∈ l, entryKeyLe b e = true := by
  constructor
  · exact (sortEntries_perm l).mem_iff.mp (h ▸ List.mem_cons_self b rest)
  · intro e he
    have he2 : e ∈ b :: rest := h ▸ (sortEntries_perm l).mem_iff.mpr he
    rcases List.mem_cons.mp he2 with rfl | he2
    · exact entryKeyLe_refl e
    · have hp := sortEntries_pairwise l
      rw [h] at hp
      exact (List.pairwise_cons.mp hp).1 e he2

lemma filter_insertEntry (x : ScoreEntry) (l : List ScoreEntry) (s : Nat) (t : ℚ) :
    (insertEntry x l).filter (sameKey s t) =
      if sameKey s t x then x :: l.filter (sameKey s t) else l.filter (sameKey s t) := by
  induction l with
  | nil =>
    simp only [insertEntry, List.filter]
    cases hx : sameKey s t x <;> simp [hx]
  | cons y ys ih =>
    by_cases hxy : entryKeyLe x y
    · rw [insertEntry, if_pos hxy]
      by_cases hx : sameKey s t x
      · rw [if_pos hx, List.filter_cons, if_pos hx]
      · rw [if_neg hx, List.filter_cons, if_neg (by simp [hx])]
    · rw [insertEntry, if_neg hxy]
      by_cases hx : sameKey s t x
      · rw [if_pos hx]
        by_cases hy : sameKey s t y
        · exfalso
          apply hxy
          have hxk := Bool.and_eq_true _ _ ▸ hx
          have hyk := Bool.and_eq_true _ _ ▸ hy
          simp only [decide_eq_true_eq] at hxk hyk
          exact entryKeyLe_iff.mpr
            (Or.inr ⟨hxk.1.trans hyk.1.symm, le_of_eq (hxk.2.trans hyk.2.symm)⟩)
        · rw [List.filter_cons, if_neg (by simp [hy]), List.filter_cons,
            if_neg (by simp [hy]), ih, if_pos hx]
      · rw [if_neg hx]
        rw [List.filter_cons, List.filter_cons, ih, if_neg hx]

lemma filter_sortEntries (l : List ScoreEntry) (s : Nat) (t : ℚ) :
    (sortEntries l).filter (sameKey s t) = l.filter (sameKey s t) := by
  induction l with
  | nil => rfl
  | cons x xs ih =>
    rw [sortEntries, filter_insertEntry, List.filter_cons, ih]

lemma handleKey_noKey (nopts selected : Nat) :
    handleKey nopts selected KeyEvent.noKey = (selected, none) := rfl

lemma runLoop_noInput (timeout : ℚ) (nopts : Nat) (selected : Nat)
    (events : List (ℚ × KeyEvent))
    (hnone : ∀ p ∈ events, p.2 = KeyEvent.noKey)
    (hterm : ∃ p ∈ events, timeout ≤ p.1) :
    runLoop timeout nopts selected events = some none := by
  induction events generalizing selected with
  | nil =>
    rcases hterm with ⟨p, hp, _⟩
    exact absurd hp (List.not_mem_nil p)
  | cons e rest ih =>
    obtain ⟨elapsed, k⟩ := e
    have hk : k = KeyEvent.noKey := hnone (elapsed, k) (List.mem_cons_self _ _)
    subst hk
    rw [runLoop]
    by_cases h : timeout ≤ elapsed
    · rw [if_pos h]
    · rw [if_neg h]
      have hterm2 : ∃ p ∈ rest, timeout ≤ p.1 := by
        rcases hterm with ⟨p, hp, hple⟩
        rcases List.mem_cons.mp hp with rfl | hp2
        · exact absurd hple h
        · exact ⟨p, hp2, hple⟩
      have hnone2 : ∀ p ∈ rest, p.2 = KeyEvent.noKey :=
        fun p hp => hnone p (List.mem_cons_of_mem _ hp)
      rw [handleKey_noKey]
      exact ih selected hnone2 hterm2

lemma runLoop_isSome (timeout : ℚ) (nopts : Nat) (selected : Nat)
    (events : List (ℚ × KeyEvent))
    (hterm : ∃ p ∈ events, timeout ≤ p.1) :
    (runLoop timeout nopts selected events).isSome = true := by
  induction events generalizing selected with
  | nil =>
    rcases hterm with ⟨p, hp, _⟩
    exact absurd hp (List.not_mem_nil p)
  | cons e rest ih =>
    obtain ⟨elapsed, k⟩ := e
    rw [runLoop]
    by_cases h : timeout ≤ elapsed
    · rw [if_pos h]; rfl
    · rw [if_neg h]
      have hterm2 : ∃ p ∈ rest, timeout ≤ p.1 := by
        rcases hterm with ⟨p, hp, hple⟩
        rcases List.mem_cons.mp hp with rfl | hp2
        · exact absurd hple h
        · exact ⟨p, hp2, hple⟩
      rcases hhk : handleKey nopts selected k with ⟨selected2, a⟩
      cases a with
      | none => exact ih selected2 hterm2
      | some a2 => rfl

lemma runQuestion_spec {timeout : ℚ} {q : Question} {s : QSched}
    {o : QuestionOutcome} {inc : Nat} {tInc : ℚ}
    (h : runQuestion timeout q s = some (o, inc, tInc)) :
    o.time_taken = s.finalElapsed ∧
    inc = (if o.is_correct then 1 else 0) ∧
    tInc = (if o.timed_out then timeout else o.time_taken) ∧
    o.timed_out = o.player_answer.isNone ∧
    o.correct_answer = q.correct ∧
    (∀ i, o.player_answer = some i → (o.is_correct = true ↔ i = q.correct)) := by
  rcases hl : runLoop timeout q.options.length 0 s.events with _ | answer
  · rw [runQuestion, hl] at h
    exact absurd h (by simp)
  · rw [runQuestion, hl] at h
    simp only [Option.map_some', Option.some.injEq] at h
    cases answer with
    | none =>
      rw [finishQuestion] at h
      obtain ⟨rfl, rfl, rfl⟩ := Prod.mk.injEq .. ▸ h
      refine ⟨rfl, rfl, rfl, rfl, rfl, ?_⟩
      intro i hi
      exact absurd hi (by simp)
    | some a =>
      rw [finishQuestion] at h
      by_cases ha : a = q.correct
      · rw [if_pos ha] at h
        obtain ⟨rfl, rfl, rfl⟩ := Prod.mk.injEq .. ▸ h
        refine ⟨rfl, rfl, rfl, rfl, rfl, ?_⟩
        intro i hi
        simp only [Option.some.injEq] at hi
        subst hi
        simp [ha]
      · rw [if_neg ha] at h
        obtain ⟨rfl, rfl, rfl⟩ := Prod.mk.injEq .. ▸ h
        refine ⟨rfl, rfl, rfl, rfl, rfl, ?_⟩
        intro i hi
        simp only [Option.some.injEq] at hi
        subst hi
        simp [ha]

/-- A concrete two-option question used for counterexamples and
witnesses. -/
def q0 : Question := ⟨1, "q", ["x", "y"], 0, ""⟩

/-- A schedule with no input whose first poll already sees the elapsed
time past a 30-second limit, measuring 31 seconds after the loop. -/
def sched0 : QSched := ⟨[((31 : ℚ), KeyEvent.noKey)], 31⟩

/-- A no-input schedule with one poll before and one after a 30-second
limit, measuring 33 seconds after the loop. -/
def schedB : QSched := ⟨[((10 : ℚ), KeyEvent.noKey), ((32 : ℚ), KeyEvent.noKey)], 33⟩

/-- A schedule that confirms the highlighted option with the spacebar at
5 seconds, measuring 6 seconds after the loop. -/
def schedA : QSched := ⟨[((5 : ℚ), KeyEvent.ch ' ')], 6⟩

/-- The outcome of playing `q0` under `schedA`: option 0 confirmed,
correct. -/
def outcomeA : QuestionOutcome :=
  ⟨1, "q", ["x", "y"], 0, some 0, true, 6, false⟩

/-- The session result of playing the one-question game `[(q0, schedA)]`. -/
def sessA : SessionResult := ⟨1, 6, [outcomeA]⟩

/-- C1, counterexample: with `time_per_question = 30` and no input, the
first poll past the limit sees elapsed time 31, and the emitted outcome
records `time_taken = 31`, the elapsed time measured after the loop
(qliz.py line 561), not exactly 30 as the claim states; only the
`total_time` increment is exactly 30. -/
theorem c1_timeout_counterexample :
    runQuestion 30 q0 sched0 =
      some ({ question_id := 1, question_text := "q", options := ["x", "y"],
              correct_answer := 0, player_answer := none, is_correct := false,
              time_taken := 31, timed_out := true }, 0, 30) ∧
    (31 : ℚ) ≠ 30 := by
  exact ⟨by decide, by decide⟩

/-- C1, amended: if no input event arrives and some poll sees the elapsed
time reach `time_per_question`, the loop times out and the outcome has
`player_answer = None`, `is_correct = False`, and `time_taken` equal to
the elapsed time measured after the loop (which can exceed
`time_per_question`); the increment added to `total_time` is exactly
`time_per_question`. -/
theorem c1_timeout_amended (timeout : ℚ) (q : Question) (s : QSched)
    (hnone : ∀ p ∈ s.events, p.2 = KeyEvent.noKey)
    (hterm : ∃ p ∈ s.events, timeout ≤ p.1) :
    runQuestion timeout q s =
      some ({ question_id := q.id, question_text := q.question, options := q.options,
              correct_answer := q.correct, player_answer := none, is_correct := false,
              time_taken := s.finalElapsed, timed_out := true }, 0, timeout) := by
  rw [runQuestion, runLoop_noInput timeout q.options.length 0 s.events hnone hterm]
  rfl

/-- C1, witness for the amended theorem at a concrete schedule. -/
theorem c1_timeout_amended_witness :
    runQuestion 30 q0 schedB =
      some ({ question_id := 1, question_text := "q", options := ["x", "y"],
              correct_answer := 0, player_answer := none, is_correct := false,
              time_taken := 33, timed_out := true }, 0, 30) :=
  c1_timeout_amended 30 q0 schedB (by decide) (by decide)

/-- C2, counterexample: in a session whose single question times out
with measured elapsed time 31 against a 30-second limit, the sum of
`time_taken` over the outcomes is 31 while `total_time` is 30, so the
two differ. -/
theorem c2_totals_counterexample :
    ((playGame 30 [(q0, sched0)]).map fun r =>
        ((r.question_details.map QuestionOutcome.time_taken).sum, r.total_time)) =
      some (31, 30) ∧
    (31 : ℚ) ≠ 30 := by
  refine ⟨?_, by norm_num⟩
  norm_num [playGame, runQuestion, runLoop, handleKey, finishQuestion, sched0, q0,
    Option.bind]

/-- C2, amended: for every completed session the score equals the number
of outcomes with `is_correct` true; and the sum of `time_taken` over the
outcomes equals `total_time` provided every timed-out outcome has
`time_taken` equal to `time_per_question` (on timeout the code adds
`time_per_question` to the total but records the measured elapsed time,
which can exceed it). -/
theorem c2_totals_amended (timeout : ℚ) (game : List (Question × QSched))
    (r : SessionResult) (hr : playGame timeout game = some r) :
    r.score = (r.question_details.filter (fun o => o.is_correct)).length ∧
    ((∀ o ∈ r.question_details, o.timed_out = true → o.time_taken = timeout) →
      (r.question_details.map QuestionOutcome.time_taken).sum = r.total_time) := by
  induction game generalizing r with
  | nil =>
    simp only [playGame, Option.some.injEq] at hr
    subst hr
    simp
  | cons qs rest ih =>
    obtain ⟨q, s⟩ := qs
    simp only [playGame, Option.bind_eq_some, Option.map_eq_some'] at hr
    obtain ⟨⟨o, inc, tInc⟩, hq, r2, hrest, hr2⟩ := hr
    subst hr2
    obtain ⟨htt, hinc, htinc, _, _, _⟩ := runQuestion_spec hq
    obtain ⟨ihs, iht⟩ := ih r2 hrest
    constructor
    · show inc + r2.score = _
      have hlen : (List.filter (fun o2 => o2.is_correct) (o :: r2.question_details)).length =
          (if o.is_correct then 1 else 0) +
            (List.filter (fun o2 => o2.is_correct) r2.question_details).length := by
        simp only [List.filter_cons]
        cases o.is_correct <;> simp
        omega
      rw [hlen, ← ihs, hinc]
    · intro hto
      have hto2 : ∀ o2 ∈ r2.question_details, o2.timed_out = true → o2.time_taken = timeout :=
        fun o2 h2 => hto o2 (List.mem_cons_of_mem _ h2)
      have hsum := iht hto2
      show (List.map QuestionOutcome.time_taken (o :: r2.question_details)).sum
        = tInc + r2.total_time
      have heq : tInc = o.time_taken := by
        cases hob : o.timed_out with
        | false => rw [htinc, hob]; simp
        | true =>
          rw [htinc, hob]
          simp only [if_pos rfl]
          exact (hto o (List.mem_cons_self _ _) hob).symm
      rw [List.map_cons, List.sum_cons, heq, hsum]

/-- Evaluation of the one-question game `[(q0, schedA)]`: the player
confirms option 0 at 5 seconds, measured at 6 seconds. -/
lemma playGame_q0_schedA : playGame 30 [(q0, schedA)] = some sessA := by
  norm_num [playGame, runQuestion, runLoop, handleKey, finishQuestion, schedA, q0,
    sessA, outcomeA, Option.bind]

/-- C2, witness: the amended totals at a concrete answered session. -/
theorem c2_totals_witness :
    sessA.score = (sessA.question_details.filter (fun o => o.is_correct)).length ∧
    (sessA.question_details.map QuestionOutcome.time_taken).sum = sessA.total_time :=
  ⟨(c2_totals_amended 30 [(q0, schedA)] sessA playGame_q0_schedA).1,
   (c2_totals_amended 30 [(q0, schedA)] sessA playGame_q0_schedA).2 (by decide)⟩

/-- C3, confirmed: in every completed session, an answered outcome is
marked correct exactly when the recorded answer index equals the
recorded correct index of the question; any other non-null answer is
marked incorrect (qliz.py lines 563-576). -/
theorem c3_scoring (timeout : ℚ) (game : List (Question × QSched))
    (r : SessionResult) (hr : playGame timeout game = some r)
    (o : QuestionOutcome) (ho : o ∈ r.question_details)
    (i : Nat) (ha : o.player_answer = some i) :
    o.is_correct = true ↔ i = o.correct_answer := by
  induction game generalizing r with
  | nil =>
    simp only [playGame, Option.some.injEq] at hr
    subst hr
    simp at ho
  | cons qs rest ih =>
    obtain ⟨q, s⟩ := qs
    simp only [playGame, Option.bind_eq_some, Option.map_eq_some'] at hr
    obtain ⟨⟨o2, inc, tInc⟩, hq, r2, hrest, hr2⟩ := hr
    subst hr2
    replace ho : o ∈ o2 :: r2.question_details := ho
    rcases List.mem_cons.mp ho with rfl | ho2
    · obtain ⟨_, _, _, _, hcorr, hspec⟩ := runQuestion_spec hq
      rw [hcorr]
      exact hspec i ha
    · exact ih r2 hrest ho2

/-- C3, witness at a concrete session: the answered outcome of
`[(q0, schedA)]` with answer index 0. -/
theorem c3_scoring_witness :
    outcomeA.is_correct = true ↔ 0 = outcomeA.correct_answer :=
  c3_scoring 30 [(q0, schedA)] sessA playGame_q0_schedA outcomeA (by decide) 0 (by decide)

/-- C4, confirmed: selection returns exactly `min(count, N)` distinct
questions drawn from the bank, and returns the whole bank unchanged (in
bank order, not re-shuffled) when the requested count reaches the bank
size.  The `random.sample` output is abstracted as the index list
`sampleIdx`; the hypotheses state what `random.sample(population, k)`
guarantees: `k` pairwise-distinct valid positions. -/
theorem c4_selection (bank : List Question) (k : Nat) (sampleIdx : List Nat)
    (hbank : bank.Nodup) (hlen : sampleIdx.length = k) (hnd : sampleIdx.Nodup)
    (hvalid : ∀ i ∈ sampleIdx, i < bank.length) :
    (select_random_questions bank k sampleIdx).length = min k bank.length ∧
    (select_random_questions bank k sampleIdx).Nodup ∧
    (∀ q ∈ select_random_questions bank k sampleIdx, q ∈ bank) ∧
    (bank.length ≤ k → select_random_questions bank k sampleIdx = bank) := by
  by_cases hc : bank.length ≤ k
  · rw [select_random_questions, if_pos hc]
    exact ⟨(Nat.min_eq_right hc).symm, hbank, fun q hq => hq, fun _ => rfl⟩
  · rw [select_random_questions, if_neg hc]
    refine ⟨?_, ?_, ?_, fun h => absurd h hc⟩
    · rw [List.length_map, hlen, Nat.min_eq_left (Nat.le_of_lt (Nat.lt_of_not_le hc))]
    · refine List.Nodup.map_on ?_ hnd
      intro i hi j hj heq
      rw [List.getD_eq_getElem bank default (hvalid i hi),
        List.getD_eq_getElem bank default (hvalid j hj)] at heq
      have hinj := List.nodup_iff_injective_getElem.mp hbank
      have := @hinj ⟨i, hvalid i hi⟩ ⟨j, hvalid j hj⟩ heq
      exact Fin.mk.injEq .. ▸ this
    · intro q hq
      obtain ⟨i, hi, rfl⟩ := List.mem_map.mp hq
      rw [List.getD_eq_getElem bank default (hvalid i hi)]
      exact List.getElem_mem _

/-- A concrete three-question bank for the selection witness. -/
def bankW : List Question :=
  [⟨1, "q1", ["x", "y"], 0, ""⟩, ⟨2, "q2", ["x", "y"], 1, ""⟩, ⟨3, "q3", ["x", "y"], 0, ""⟩]

/-- C4, witness: selecting 2 of the 3 bank questions through the sample
positions `[2, 0]`. -/
theorem c4_selection_witness :
    (select_random_questions bankW 2 [2, 0]).length = min 2 bankW.length ∧
    (select_random_questions bankW 2 [2, 0]).Nodup ∧
    (∀ q ∈ select_random_questions bankW 2 [2, 0], q ∈ bankW) ∧
    (bankW.length ≤ 2 → select_random_questions bankW 2 [2, 0] = bankW) :=
  c4_selection bankW 2 [2, 0] (by decide) rfl (by decide) (by decide)

/-- C5, confirmed: the new-high-score flag of `show_game_over` is true
exactly when the scoreboard was empty; or the new score strictly exceeds
every existing score; or the new score is at least every existing score
and the new total time is strictly below the total time of every entry
tying it — that is, it ties the best score with a strictly lower total
time than the best entry.  In every other case, incl. tying the best
score with an equal or higher total time, it is false. -/
theorem c5_high_score (scores : List ScoreEntry) (pScore : Nat) (pTime : ℚ) :
    is_high_score scores pScore pTime = true ↔
      scores = [] ∨
      (∀ e ∈ scores, e.score < pScore) ∨
      ((∀ e ∈ scores, e.score ≤ pScore) ∧
        ∀ e ∈ scores, e.score = pScore → pTime < e.total_time) := by
  cases scores with
  | nil => simp [is_high_score]
  | cons x xs =>
    rcases hs : sortEntries (x :: xs) with _ | ⟨best, rest⟩
    · exfalso
      have hp := sortEntries_perm (x :: xs)
      rw [hs] at hp
      exact List.cons_ne_nil x xs (hp.symm.eq_nil)
    · obtain ⟨hmem, hmin⟩ := sortEntries_head_min hs
      rw [is_high_score, hs]
      simp only [Bool.or_eq_true, Bool.and_eq_true, decide_eq_true_eq]
      constructor
      · rintro (hb | ⟨hbs, hbt⟩)
        · refine Or.inr (Or.inl fun e he => ?_)
          rcases entryKeyLe_iff.mp (hmin e he) with hk | ⟨hk, _⟩
          · exact hk.trans hb
          · exact hk ▸ hb
        · refine Or.inr (Or.inr ⟨fun e he => ?_, fun e he hes => ?_⟩)
          · rcases entryKeyLe_iff.mp (hmin e he) with hk | ⟨hk, _⟩
            · omega
            · omega
          · rcases entryKeyLe_iff.mp (hmin e he) with hk | ⟨hk, hkt⟩
            · omega
            · exact lt_of_lt_of_le hbt hkt
      · rintro (h | h | ⟨h1, h2⟩)
        · exact absurd h (List.cons_ne_nil x xs)
        · exact Or.inl (h best hmem)
        · rcases lt_or_eq_of_le (h1 best hmem) with hlt | heq
          · exact Or.inl hlt
          · exact Or.inr ⟨heq.symm, h2 best hmem heq⟩

/-- Concrete scoreboard entries for the ranking-stability example of the
spec: two entries tying on score 5 with times 10 and 8, and one with
score 3 and time 1. -/
def entryA : ScoreEntry := ⟨"p1", "e1", false, 5, 10, "t1"⟩

/-- Second entry of the ranking example, same score as `entryA`, faster. -/
def entryB : ScoreEntry := ⟨"p2", "e2", false, 5, 8, "t2"⟩

/-- Third entry of the ranking example, lower score. -/
def entryC : ScoreEntry := ⟨"p3", "e3", false, 3, 1, "t3"⟩

/-- C6, confirmed: the ranking query returns at most `limit` entries,
sorted by descending score with ascending total time breaking ties
(consecutive entries are related by `entryKeyLe`); the underlying sort
is stable, in that the entries holding any fixed (score, total time)
pair appear in the sorted output in exactly their original insertion
order; and the spec example evaluates to the stated order. -/
theorem c6_rankings (scores : List ScoreEntry) (limit : Nat) :
    (rankings scores limit).length ≤ limit ∧
    (rankings scores limit).Pairwise (fun a b => entryKeyLe a b = true) ∧
    (∀ s t, (sortEntries scores).filter (sameKey s t) = scores.filter (sameKey s t)) ∧
    rankings [entryA, entryB, entryC] 10 = [entryB, entryA, entryC] := by
  refine ⟨?_, ?_, fun s t => filter_sortEntries scores s t, by decide⟩
  · rw [rankings, List.length_take]
    omega
  · exact (sortEntries_pairwise scores).sublist (List.take_sublist limit (sortEntries scores))

/-- C7, counterexample: reading a present-but-corrupt scoreboard or
stats store does not yield an empty collection — the decode error
propagates out of the load (only `FileNotFoundError` is caught at
qliz.py lines 689 and 716), so the claimed non-fatal surfacing does not
happen for the corrupt case. -/
theorem c7_persistence_counterexample :
    load_scoreboard FileState.corrupt = Except.error LoadError.jsonDecodeError ∧
    (load_scoreboard FileState.corrupt).toOption = none ∧
    load_stats FileState.corrupt = Except.error LoadError.jsonDecodeError ∧
    (load_stats FileState.corrupt).toOption = none :=
  ⟨rfl, rfl, rfl, rfl⟩

/-- C7, amended: an absent scoreboard or stats store reads as the empty
collection and recording appends the new entry and writes back the full
collection; but a present-and-corrupt store raises an unhandled decode
error out of the load instead of yielding an empty collection (only a
missing file is tolerated). -/
theorem c7_persistence_amended :
    load_scoreboard FileState.absent = Except.ok ⟨none, none, none, []⟩ ∧
    load_stats FileState.absent = Except.ok [] ∧
    load_scoreboard FileState.corrupt = Except.error LoadError.jsonDecodeError ∧
    load_stats FileState.corrupt = Except.error LoadError.jsonDecodeError ∧
    (∀ (d : ScoreboardData) (e : ScoreEntry) (t ds n : String),
      load_scoreboard (FileState.present (save_score d e t ds n)) =
        Except.ok ⟨some t, some ds, some n, d.scores ++ [e]⟩) ∧
    (∀ (l : List StatsRecord) (rec : StatsRecord),
      load_stats (FileState.present (save_game_stats l rec)) = Except.ok (l ++ [rec])) :=
  ⟨rfl, rfl, rfl, rfl, fun _ _ _ _ _ => rfl, fun _ _ => rfl⟩

/-- A concrete one-option question for the degenerate-options witness. -/
def qOne : Question := ⟨2, "o", ["only"], 0, ""⟩

/-- C8, confirmed: for a question with zero or one options the timed
loop still functions — it terminates in a terminal state whenever some
poll sees the elapsed time reach the limit (input events cannot prevent
this), and the up and down wrap-arounds leave the highlighted index 0
unchanged (a no-op on one option; on zero options the
`ZeroDivisionError` of the modulo is swallowed by the bare `except` of
qliz.py line 554). -/
theorem c8_degenerate_options (timeout : ℚ) (q : Question) (s : QSched)
    (hopts : q.options.length ≤ 1)
    (hterm : ∃ p ∈ s.events, timeout ≤ p.1) :
    (runQuestion timeout q s).isSome = true ∧
    (handleKey q.options.length 0 KeyEvent.keyUp).1 = 0 ∧
    (handleKey q.options.length 0 KeyEvent.keyDown).1 = 0 := by
  refine ⟨?_, ?_, ?_⟩
  · have h2 := runLoop_isSome timeout q.options.length 0 s.events hterm
    rcases hl : runLoop timeout q.options.length 0 s.events with _ | a
    · rw [hl] at h2
      exact absurd h2 (by simp)
    · rw [runQuestion, hl]
      rfl
  · rcases Nat.le_one_iff_eq_zero_or_eq_one.mp hopts with h | h <;> rw [h] <;> rfl
  · rcases Nat.le_one_iff_eq_zero_or_eq_one.mp hopts with h | h <;> rw [h] <;> rfl

/-- C8, witness at a concrete one-option question and a no-input
schedule reaching the limit. -/
theorem c8_degenerate_options_witness :
    (runQuestion 30 qOne sched0).isSome = true ∧
    (handleKey qOne.options.length 0 KeyEvent.keyUp).1 = 0 ∧
    (handleKey qOne.options.length 0 KeyEvent.keyDown).1 = 0 :=
  c8_degenerate_options 30 qOne sched0 (by decide) (by decide)

/-- The direct-select letter keys of the question loop elif chain
(qliz.py lines 505-528): both cases of the letters map to option
indices 0 through 5. -/
def letterKeys : List (Char × Nat) :=
  [('a', 0), ('A', 0), ('b', 1), ('B', 1), ('c', 2), ('C', 2),
   ('d', 3), ('D', 3), ('e', 4), ('E', 4), ('f', 5), ('F', 5)]

/-- C10, confirmed: the spacebar commits the currently highlighted
index exactly like Enter (qliz.py line 501), and each letter key A-F in
either case commits its option index when that index is strictly below
the option count, and is a no-op otherwise (qliz.py lines 505-528). -/
theorem c10_extra_keys (nopts selected : Nat) (c : Char) (i : Nat)
    (h : (c, i) ∈ letterKeys) :
    handleKey nopts selected (KeyEvent.ch ' ') = (selected, some selected) ∧
    (i < nopts → handleKey nopts selected (KeyEvent.ch c) = (selected, some i)) ∧
    (nopts ≤ i → handleKey nopts selected (KeyEvent.ch c) = (selected, none)) := by
  refine ⟨?_, ?_, ?_⟩
  · simp [handleKey]
  · intro hlt
    fin_cases h <;> simp +decide [handleKey, hlt]
  · intro hge
    have hnl : ¬(i < nopts) := Nat.not_lt.mpr hge
    fin_cases h <;> simp +decide [handleKey, hnl]

/-- C10, witness: with 3 options, the spacebar confirms the highlighted
index 1, the letter C commits option index 2; with 1 option, the letter
C is a no-op because index 2 is out of range. -/
theorem c10_extra_keys_witness :
    handleKey 3 1 (KeyEvent.ch ' ') = (1, some 1) ∧
    handleKey 3 1 (KeyEvent.ch 'C') = (1, some 2) ∧
    handleKey 1 0 (KeyEvent.ch 'C') = (0, none) :=
  ⟨(c10_extra_keys 3 1 'C' 2 (by decide)).1,
   (c10_extra_keys 3 1 'C' 2 (by decide)).2.1 (by decide),
   (c10_extra_keys 1 0 'C' 2 (by decide)).2.2 (by decide)⟩

/-- C9, confirmed: loading a scoreboard store that is a bare list of
entries yields exactly the same scores collection as loading one wrapped
in a metadata header with the same entries (qliz.py lines 685-688 wrap a
bare list as `{"scores": data}`). -/
theorem c9_legacy_format (es : List ScoreEntry) (t d u : String) :
    (load_scoreboard (FileState.present (ScoreboardFile.bare es))).toOption.map
        ScoreboardData.scores =
      (load_scoreboard (FileState.present (ScoreboardFile.wrapped t d u es))).toOption.map
        ScoreboardData.scores := rfl
